import Mathlib

/-!
Verification development for the document-retrieval core of the `oip_chat_agent`
repository: the `SemanticChunker` (my_agent/rag/chunker.py), the
`FAISSVectorStore` (my_agent/rag/vector_store.py) and the RAG query entry
point `search_oip_documents` (my_agent/tools/rag_tool.py).

Python strings are modelled as `List Char`, Python floats as exact rationals
(`ℚ`), Python `int` as `Int`/`Nat`.  The FAISS library call
`IndexFlatL2.search` (external to the repository) is modelled from its
documented exact nearest-neighbor semantics.  Non-terminating Python loops are
modelled with an explicit fuel parameter: `none` marks fuel exhaustion, which
on the inputs considered happens exactly when the Python loop fails to advance.
-/

namespace OipChat

/-- Python `str.isspace`-style whitespace test used by `str.strip()`. -/
def isPySpace (c : Char) : Bool := c.isWhitespace

/-- Model of Python `str.strip()`: drop whitespace from both ends. -/
def pyStrip (l : List Char) : List Char :=
  ((l.dropWhile isPySpace).reverse.dropWhile isPySpace).reverse

/-- Resolve one Python slice index: negative indices count from the end and
everything is clamped into `[0, len]`. -/
def pySliceIdx (len : Nat) (i : Int) : Nat :=
  if i < 0 then ((len : Int) + i).toNat else min i.toNat len

/-- Model of Python slicing `text[a:b]`. -/
def pySlice (text : List Char) (a b : Int) : List Char :=
  (text.take (pySliceIdx text.length b)).drop (pySliceIdx text.length a)

/-- `leadsWith sep l` holds when `sep` is an initial segment of `l`
(the character-by-character comparison done by substring search). -/
def leadsWith : List Char → List Char → Bool
  | [], _ => true
  | _ :: _, [] => false
  | a :: as, b :: bs => a == b && leadsWith as bs

/-- Forward scan that remembers the last position `i` with `s ≤ i`,
`i + sep.length ≤ e` and `sep` occurring at `i`; `acc` is the best so far. -/
def rfindGo (sep : List Char) (s e : Nat) : List Char → Nat → Int → Int
  | [], _, acc => acc
  | l@(_ :: rest), i, acc =>
    let acc := if s ≤ i ∧ i + sep.length ≤ e ∧ leadsWith sep l then (i : Int) else acc
    rfindGo sep s e rest (i + 1) acc

/-- Model of Python `text.rfind(sep, a, b)`: highest index of an occurrence of
`sep` inside `text[a:b]`, or `-1` when there is none. -/
def pyRfind (text sep : List Char) (a b : Int) : Int :=
  rfindGo sep (pySliceIdx text.length a) (pySliceIdx text.length b) text 0 (-1)

/-- `DocumentType` from my_agent/models.py. -/
inductive DocumentType where
  | pdf
  | docx
  | txt
deriving DecidableEq

/-- `ChunkMetadata` from my_agent/models.py. -/
structure ChunkMetadata where
  source : String
  page : Option Int
  chunk_index : Nat
  total_chunks : Nat
  doc_type : Option DocumentType
deriving DecidableEq

/-- `DocumentChunk` from my_agent/models.py (text as `List Char`, embedding
vectors as exact rationals). -/
structure DocumentChunk where
  text : List Char
  metadata : ChunkMetadata
  embedding : Option (List ℚ)
deriving DecidableEq

/-- `Document` from my_agent/models.py. -/
structure Document where
  content : List Char
  source : String
  doc_type : DocumentType
deriving DecidableEq

/-- `SemanticChunker` configuration (my_agent/rag/chunker.py). -/
structure SemanticChunker where
  chunk_size : Nat
  overlap : Nat
deriving DecidableEq

namespace SemanticChunker

/-- `SemanticChunker.__init__`: the constructor stores both parameters
without any validation. -/
def init (chunk_size overlap : Nat) : SemanticChunker :=
  { chunk_size := chunk_size, overlap := overlap }

/-- The sentence separators tried, in order, by `_split_with_overlap`:
`". "`, `"! "`, `"? "`, `"\n"`. -/
def sentenceSeps : List (List Char) :=
  [['.', ' '], ['!', ' '], ['?', ' '], ['\n']]

/-- The `for sep in [...]` loop body of `_split_with_overlap`: take the first
separator whose last occurrence lies strictly past the middle of the window
and cut just after it; otherwise keep the raw end. -/
def sepAdjust (ck : SemanticChunker) (text : List Char) (start e : Int) :
    List (List Char) → Int
  | [] => e
  | sep :: rest =>
    let last := pyRfind text sep start e
    if last > start + ((ck.chunk_size / 2 : Nat) : Int) then last + 1
    else sepAdjust ck text start e rest

/-- One window boundary of `_split_with_overlap`: `end = start + chunk_size`,
adjusted backwards to a sentence boundary when `end < len(text)`. -/
def windowEnd (ck : SemanticChunker) (text : List Char) (start : Int) : Int :=
  let e := start + (ck.chunk_size : Int)
  if e < (text.length : Int) then sepAdjust ck text start e sentenceSeps
  else e

/-- The next window start computed by one iteration of `_split_with_overlap`:
`start = end - overlap`. -/
def nextStart (ck : SemanticChunker) (text : List Char) (start : Int) : Int :=
  windowEnd ck text start - (ck.overlap : Int)

/-- The `while start < len(text)` loop of `_split_with_overlap`, with fuel;
`none` marks fuel exhaustion (the Python loop not advancing). -/
def splitGo (ck : SemanticChunker) (text : List Char) :
    Nat → Int → Option (List (List Char))
  | 0, _ => none
  | fuel + 1, start =>
    if start < (text.length : Int) then
      let e := windowEnd ck text start
      let chunk := pyStrip (pySlice text start e)
      match splitGo ck text fuel (e - (ck.overlap : Int)) with
      | none => none
      | some rest => some (if chunk = [] then rest else chunk :: rest)
    else some []

/-- `_split_with_overlap`: slide a window of width `chunk_size` with step
`chunk_size - overlap` over an oversized paragraph.  A strictly advancing
loop starting at 0 runs at most `len(text) + 1` times, so that much fuel
is exact: `none` is returned iff the Python loop fails to advance. -/
def splitWithOverlap (ck : SemanticChunker) (text : List Char) :
    Option (List (List Char)) :=
  splitGo ck text (text.length + 1) 0

/-- Accumulator worker for `split("\n\n")`: `cur` holds the characters of
the current piece in reverse. -/
def splitBlankGo (cur : List Char) : List Char → List (List Char)
  | [] => [cur.reverse]
  | [c] => [(c :: cur).reverse]
  | a :: b :: rest =>
    if a = '\n' ∧ b = '\n' then cur.reverse :: splitBlankGo [] rest
    else splitBlankGo (a :: cur) (b :: rest)

/-- `_split_paragraphs`: split on blank lines (`"\n\n"`), consuming
occurrences leftmost-first as Python `str.split` does. -/
def splitOnBlank (text : List Char) : List (List Char) :=
  splitBlankGo [] text

/-- `_split_paragraphs`: paragraphs are the blank-line-separated pieces,
stripped, with empty ones discarded. -/
def splitParagraphs (text : List Char) : List (List Char) :=
  ((splitOnBlank text).map pyStrip).filter (· ≠ [])

/-- The paragraph loop of `_merge_and_split`: `chunks` is the accumulated
output, `current` the running buffer (Python's `current_chunk`). -/
def mergeGo (ck : SemanticChunker) (chunks : List (List Char))
    (current : List Char) : List (List Char) → Option (List (List Char))
  | [] => some (if current = [] then chunks else chunks ++ [current])
  | para :: rest =>
    if para.length > ck.chunk_size then
      let chunks := if current = [] then chunks else chunks ++ [current]
      match splitWithOverlap ck para with
      | none => none
      | some pcs => mergeGo ck (chunks ++ pcs) [] rest
    else if current.length + para.length + 2 > ck.chunk_size then
      mergeGo ck (if current = [] then chunks else chunks ++ [current]) para rest
    else
      mergeGo ck chunks
        (if current = [] then para else current ++ '\n' :: '\n' :: para) rest

/-- `_merge_and_split`: greedily merge small paragraphs, split oversized
ones with `_split_with_overlap`. -/
def mergeAndSplit (ck : SemanticChunker) (paragraphs : List (List Char)) :
    Option (List (List Char)) :=
  mergeGo ck [] [] paragraphs

/-- `chunk_document`: split into paragraphs, merge-and-split, then wrap each
raw chunk (stripped) with metadata carrying its 0-based index in emission
order and the back-filled total count. -/
def chunkDocument (ck : SemanticChunker) (doc : Document) :
    Option (List DocumentChunk) :=
  match mergeAndSplit ck (splitParagraphs doc.content) with
  | none => none
  | some raw =>
    some (((List.range raw.length).zip raw).map (fun p =>
      { text := pyStrip p.2
        metadata :=
          { source := doc.source
            page := none
            chunk_index := p.1
            total_chunks := raw.length
            doc_type := some doc.doc_type }
        embedding := none }))

end SemanticChunker

/- `RAGConfig` from my_agent/config.py. -/
namespace RAGConfig

def CHUNK_SIZE : Nat := 500

def CHUNK_OVERLAP : Nat := 50

def EMBEDDING_DIMENSION : Nat := 1536

def DEFAULT_TOP_K : Nat := 5

def SIMILARITY_THRESHOLD : ℚ := 3 / 10

end RAGConfig

/-- `SearchResult` from my_agent/models.py. -/
structure SearchResult where
  text : List Char
  score : ℚ
  metadata : ChunkMetadata
deriving DecidableEq

namespace FAISSVectorStore

/-- The mutable state of a `FAISSVectorStore`: the FAISS index is the stored
vector list (or `none` before `create_index`), plus the parallel `metadata`
and `texts` arrays and the configured dimension. -/
structure Store where
  dimension : Nat
  index : Option (List (List ℚ))
  metadata : List ChunkMetadata
  texts : List (List Char)
deriving DecidableEq

/-- A store as built by `__init__`: no index yet, empty side arrays. -/
def mkStore (dimension : Nat) : Store :=
  { dimension := dimension, index := none, metadata := [], texts := [] }

/-- `create_index`: fresh empty index, `metadata` and `texts` reset. -/
def createIndex (s : Store) : Store :=
  { s with index := some [], metadata := [], texts := [] }

/-- `count` property: `index.ntotal` when an index exists, else 0. -/
def count (s : Store) : Nat :=
  match s.index with
  | none => 0
  | some v => v.length

/-- The chunk loop of `add_documents`: embeddings are collected into a local
list while `metadata` and `texts` are appended to the store immediately; a
chunk with no embedding raises (`.error`) at the point it is reached,
leaving the appends made so far in place. -/
def addGo (s : Store) (embs : List (List ℚ)) :
    List DocumentChunk → Store × Except (List Char) (List (List ℚ))
  | [] => (s, .ok embs)
  | c :: rest =>
    match c.embedding with
    | none =>
      (s, .error (("Chunk missing embedding: ").data ++ c.text.take 50 ++ ("...").data))
    | some v =>
      addGo
        { s with metadata := s.metadata ++ [c.metadata], texts := s.texts ++ [c.text] }
        (embs ++ [v]) rest

/-- `add_documents`: create the index if absent, run the chunk loop, then add
all collected vectors to the index at once and return how many were added. -/
def addDocuments (s : Store) (chunks : List DocumentChunk) :
    Store × Except (List Char) Nat :=
  let s0 := match s.index with | none => createIndex s | some _ => s
  match addGo s0 [] chunks with
  | (s1, .error e) => (s1, .error e)
  | (s1, .ok embs) =>
    match embs with
    | [] => (s1, .ok 0)
    | _ :: _ =>
      ({ s1 with index := some (s1.index.getD [] ++ embs) }, .ok embs.length)

/-- Squared Euclidean (L2) distance, the metric of `faiss.IndexFlatL2`
(float32 arithmetic modelled as exact rationals). -/
def sqDist (u v : List ℚ) : ℚ :=
  (List.zipWith (fun a b => (a - b) * (a - b)) u v).sum

/-- The candidate order used by exact FAISS search: ascending squared L2
distance to the query, ties broken by ascending insertion id. -/
def faissLe (q : List ℚ) (vecs : List (List ℚ)) (i j : Nat) : Prop :=
  sqDist q (vecs.getD i []) < sqDist q (vecs.getD j []) ∨
    (sqDist q (vecs.getD i []) = sqDist q (vecs.getD j []) ∧ i ≤ j)

instance (q : List ℚ) (vecs : List (List ℚ)) : DecidableRel (faissLe q vecs) :=
  fun i j => by unfold faissLe; exact inferInstance

instance (q : List ℚ) (vecs : List (List ℚ)) : IsTotal Nat (faissLe q vecs) where
  total i j := by
    unfold faissLe
    rcases lt_trichotomy (sqDist q (vecs.getD i [])) (sqDist q (vecs.getD j [])) with h | h | h
    · exact Or.inl (Or.inl h)
    · rcases Nat.le_total i j with hij | hij
      · exact Or.inl (Or.inr ⟨h, hij⟩)
      · exact Or.inr (Or.inr ⟨h.symm, hij⟩)
    · exact Or.inr (Or.inl h)

instance (q : List ℚ) (vecs : List (List ℚ)) : IsTrans Nat (faissLe q vecs) where
  trans i j k hij hjk := by
    unfold faissLe at *
    rcases hij with h1 | ⟨h1, hi⟩
    · rcases hjk with h2 | ⟨h2, _⟩
      · exact Or.inl (h1.trans h2)
      · exact Or.inl (h2 ▸ h1)
    · rcases hjk with h2 | ⟨h2, hj⟩
      · exact Or.inl (h1 ▸ h2)
      · exact Or.inr ⟨h1.trans h2, hi.trans hj⟩

/-- Model of the external `faiss.IndexFlatL2.search` call (the library is not
part of the repository): exact k-nearest-neighbor search returning, for the
`top_k` best ids in the `faissLe` order, the pair (squared distance, id);
when fewer than `top_k` vectors are stored the tail is padded with id `-1`,
which callers must skip. -/
def faissSearch (vecs : List (List ℚ)) (q : List ℚ) (k : Nat) : List (ℚ × Int) :=
  let ids := (List.range vecs.length).insertionSort (faissLe q vecs)
  let top := (ids.take k).map (fun i => (sqDist q (vecs.getD i []), (i : Int)))
  top ++ List.replicate (k - top.length) (0, -1)

/-- The result loop of `search`: skip padded `idx < 0` rows, convert distance
to `score = 1 / (1 + d)`, skip rows with `score < threshold`, and keep
(score, id) in FAISS return order. -/
def scoreHits (vecs : List (List ℚ)) (q : List ℚ) (k : Nat) (threshold : ℚ) :
    List (ℚ × Int) :=
  ((faissSearch vecs q k).filter (fun di =>
      !(decide (di.2 < 0)) && !(decide (1 / (1 + di.1) < threshold)))).map
    (fun di => (1 / (1 + di.1), di.2))

/-- `search`: empty result on a missing or empty index, otherwise the scored
hits materialized as `SearchResult`s via the parallel arrays. -/
def search (s : Store) (q : List ℚ) (top_k : Nat) (threshold : ℚ) :
    List SearchResult :=
  match s.index with
  | none => []
  | some vecs =>
    if vecs.length = 0 then []
    else
      (scoreHits vecs q top_k threshold).map (fun p =>
        { text := s.texts.getD p.2.toNat []
          score := p.1
          metadata := s.metadata.getD p.2.toNat ⟨"", none, 0, 0, none⟩ })

/-- `search` as an explicit state transformer: the method reads `self.index`,
`self.texts` and `self.metadata` and performs no assignment to `self`, so
every exit point returns the incoming state unchanged. -/
def searchSt (s : Store) (q : List ℚ) (top_k : Nat) (threshold : ℚ) :
    Store × List SearchResult :=
  match s.index with
  | none => (s, [])
  | some vecs =>
    if vecs.length = 0 then (s, [])
    else
      (s, (scoreHits vecs q top_k threshold).map (fun p =>
        { text := s.texts.getD p.2.toNat []
          score := p.1
          metadata := s.metadata.getD p.2.toNat ⟨"", none, 0, 0, none⟩ }))

/-- The two artifacts read by `load`: the FAISS index file (the vectors) and
the `metadata.json` sidecar (`metadata`, `texts` and an optional persisted
`dimension`, read with `data.get("dimension", self.dimension)`). -/
structure DiskData where
  vectors : List (List ℚ)
  metadata : List ChunkMetadata
  texts : List (List Char)
  dimension : Option Nat
deriving DecidableEq

/-- `save`: raises when no index exists, otherwise persists the vectors and
the sidecar record with `metadata`, `texts` and the declared dimension. -/
def save (s : Store) : Except (List Char) DiskData :=
  match s.index with
  | none => .error ("No index to save").data
  | some v => .ok ⟨v, s.metadata, s.texts, some s.dimension⟩

/-- `load`: `disk = none` models the index or sidecar file missing, in which
case `load` returns `False` and touches nothing; otherwise every persisted
field is restored verbatim — the source performs no validation whatsoever on
the loaded arrays. -/
def load (s : Store) (disk : Option DiskData) : Store × Bool :=
  match disk with
  | none => (s, false)
  | some d =>
    ({ dimension := d.dimension.getD s.dimension
       index := some d.vectors
       metadata := d.metadata
       texts := d.texts }, true)

end FAISSVectorStore

/- `Prompts` from my_agent/prompts/templates.py (only the templates used by
the RAG tool; apostrophes in the literals are elided and the `:.2f` float
rendering is modelled by rounding the rational score, neither of which any
claim depends on). -/
namespace Prompts

/-- `Prompts.no_results_response`: fallback message when no documents match. -/
def no_results_response (query : String) : String :=
  "I searched the OIP documentation but could not find specific information about \"" ++
    query ++
    "\".\n\nPossible reasons:\n1. The topic is not covered in the current documentation\n2. Try rephrasing with different terms (e.g., technical vs. general)\n3. The information might be in a document not yet indexed\n\nWould you like me to help rephrase your question?"

/-- `Prompts.error_response`: user-facing error message. -/
def error_response (error_type details : String) : String :=
  let detail_line := if details = "" then "" else "\nDetails: " ++ details
  "I encountered an issue while processing your request.\n\nError: " ++ error_type ++
    detail_line ++
    "\n\nPlease try:\n1. Rephrasing your question\n2. Being more specific\n3. Trying again in a moment\n\nIf the problem persists, contact support."

/-- Two-decimal rendering of a score (Python `f\"{score:.2f}\"`), modelled on
the rational value. -/
def fmt2 (x : ℚ) : String := toString (round (x * 100) : ℤ)

/-- One `<DOCUMENT>` block of `Prompts.format_rag_context`. -/
def documentBlock (rank : Nat) (source : String) (text : List Char) (score : ℚ) :
    String :=
  "<DOCUMENT rank=\"" ++ toString rank ++ "\" source=\"" ++ source ++
    "\" relevance=\"" ++ fmt2 score ++ "\">" ++ "\n" ++ String.mk text ++
    "\n</DOCUMENT>"

end Prompts

/- The RAG tool layer, my_agent/tools/rag_tool.py.  The two external
collaborators reached inside the `try` block are passed in as values:
`store` is the outcome of `_get_vector_store()` (`.error` models the
`RuntimeError` raised when `load()` returns false) and `embed` is the
outcome of `openrouter.get_embedding(query)` (`.error` models any exception
raised by the HTTP call).  Both exceptions are caught by the function's
`except` clauses, never propagated. -/
namespace RagTool

open FAISSVectorStore

/-- One formatted entry of the `results` list built by
`search_oip_documents` (rank is 1-based enumeration order). -/
structure RagHit where
  rank : Nat
  text : List Char
  score : ℚ
  source : String
  chunk_index : Nat
deriving DecidableEq

/-- The dict returned by `search_oip_documents`. -/
structure RagResponse where
  status : String
  query : String
  results : List RagHit
  context : String
  message : String
deriving DecidableEq

/-- Python `round(x, 3)` on the score, modelled on the rational value. -/
def pyRound3 (x : ℚ) : ℚ := ((round (x * 1000) : ℤ) : ℚ) / 1000

/-- `Prompts.format_rag_context` applied to the formatted results (with
`include_scores=True`). -/
def formatRagContext (results : List RagHit) (query : String) : String :=
  if results = [] then "<NO_DOCUMENTS_FOUND/>"
  else
    String.intercalate "\n\n"
      (("<RETRIEVED_CONTEXT query=\"" ++ query ++ "\" num_results=\"" ++
          toString results.length ++ "\">") ::
        (results.map (fun r => Prompts.documentBlock r.rank r.source r.text r.score) ++
          ["</RETRIEVED_CONTEXT>"]))

/-- `search_oip_documents`: clamp `top_k` to `[1, 10]`, obtain the store and
the query embedding (each failure caught and turned into an `error`
response), search the index with the configured threshold, and return one of
the three terminal statuses. -/
def search_oip_documents (store : Except String Store)
    (embed : Except String (List ℚ)) (query : String) (top_k : Int) :
    RagResponse :=
  let top_k := min (max 1 top_k) 10
  match store with
  | .error e =>
    { status := "error", query := query, results := [], context := "", message := e }
  | .ok vs =>
    match embed with
    | .error e =>
      { status := "error", query := query, results := [], context := ""
        message := Prompts.error_response "Search Error" e }
    | .ok qe =>
      let results := search vs qe top_k.toNat RAGConfig.SIMILARITY_THRESHOLD
      if results = [] then
        { status := "no_results", query := query, results := [], context := ""
          message := Prompts.no_results_response query }
      else
        let formatted := ((List.range results.length).zip results).map (fun p =>
          { rank := p.1 + 1
            text := p.2.text
            score := pyRound3 p.2.score
            source := p.2.metadata.source
            chunk_index := p.2.metadata.chunk_index : RagHit })
        { status := "success", query := query, results := formatted
          context := formatRagContext formatted query
          message := "Found " ++ toString results.length ++ " relevant documents." }

end RagTool

/-! Concrete fixtures used by witnesses, counterexamples and failing-input
evaluations. -/

open FAISSVectorStore SemanticChunker

/-- The default chunker configuration (`RAGConfig.CHUNK_SIZE = 500`,
`RAGConfig.CHUNK_OVERLAP = 50`). -/
def chk500 : SemanticChunker := SemanticChunker.init RAGConfig.CHUNK_SIZE RAGConfig.CHUNK_OVERLAP

/-- A configuration with `overlap < chunk_size` but `overlap > chunk_size / 2 + 1`. -/
def chk108 : SemanticChunker := SemanticChunker.init 10 8

def mdA : ChunkMetadata := ⟨"doc.txt", none, 0, 2, some .txt⟩

def mdB : ChunkMetadata := ⟨"doc.txt", none, 1, 2, some .txt⟩

/-- A chunk carrying an embedding. -/
def goodChunk : DocumentChunk := ⟨("alpha").data, mdA, some [1, 2]⟩

/-- A chunk with `embedding = None`. -/
def badChunk : DocumentChunk := ⟨("beta").data, mdB, none⟩

/-- A freshly constructed store (`__init__`): no index, empty arrays. -/
def freshStore : Store := mkStore 2

/-- Persisted files whose sidecar arrays disagree in length: one text but two
metadata records. -/
def badDisk : DiskData := ⟨[], [mdA, mdB], [['a']], some 2⟩

/-- Text on which the `chk108` sliding window never advances: every window
finds `". "` just past its middle, so `end = last_sep + 1` and
`start = end - overlap` stays put. -/
def c4Text : List Char := ("abcdefg. abcdefg. abcdefg. abcdefg. abcdefg. ").data

/-- 253 letters followed by `". "` — a 255-character sentence. -/
def unitA : List Char := List.replicate 253 'a' ++ ['.', ' ']

/-- A 1,200-character single-paragraph text (no newlines at all) whose
sentence boundaries drive the sliding window into short steps. -/
def c6Text : List Char := unitA ++ unitA ++ unitA ++ unitA ++ List.replicate 180 'a'

def c6Doc : Document := ⟨c6Text, "big.txt", .txt⟩

/-- A 1,200-character whitespace-free single paragraph. -/
def aDoc1200 : List Char := List.replicate 1200 'a'

def demoDoc : Document := ⟨("hello world").data, "demo.txt", .txt⟩

def demoChunk : DocumentChunk :=
  ⟨("hello world").data, ⟨"demo.txt", none, 0, 1, some .txt⟩, none⟩

def demoVecs : List (List ℚ) := [[0, 0], [3, 4]]

/-- A populated two-vector store with well-formed parallel arrays. -/
def demoStore : Store := ⟨2, some demoVecs, [mdA, mdB], [['a'], ['b']]⟩

/-- The search postconditions asserted by the spec for a store whose index
holds `vecs`: at most `top_k` results; every result's score is
`1 / (1 + d)` for the squared L2 distance `d` to some stored vector, lies in
`(0, 1]`, is at least the threshold, and the result text is that vector's
text; the scored hits are strictly ordered by descending score with ties
broken by ascending insertion id; result scores are non-increasing. -/
def searchPost (s : Store) (vecs : List (List ℚ)) (q : List ℚ) (k : Nat)
    (thr : ℚ) : Prop :=
  (search s q k thr).length ≤ k ∧
  (∀ r ∈ search s q k thr, ∃ i, i < vecs.length ∧
      r.score = 1 / (1 + sqDist q (vecs.getD i [])) ∧
      r.text = s.texts.getD i [] ∧
      0 < r.score ∧ r.score ≤ 1 ∧ thr ≤ r.score) ∧
  List.Pairwise (fun a b : ℚ × Int => b.1 < a.1 ∨ (a.1 = b.1 ∧ a.2 < b.2))
    (scoreHits vecs q k thr) ∧
  List.Pairwise (fun a b : SearchResult => b.score ≤ a.score) (search s q k thr)

/-- The store states the code can produce: `__init__`, `create_index` /
`clear`, `add_documents` (successful or aborted) and `load`; `search` never
changes the state (`searchSt` returns it unchanged). -/
inductive Reach : Store → Prop where
  | mk (dimension : Nat) : Reach (mkStore dimension)
  | create (s : Store) : Reach s → Reach (createIndex s)
  | add (s : Store) (chunks : List DocumentChunk) :
      Reach s → Reach (addDocuments s chunks).1
  | load (s : Store) (disk : Option DiskData) :
      Reach s → Reach (load s disk).1

/-! ## Claim theorems -/

/-- Helper: the chunk loop of `add_documents` never touches the index
field. -/
theorem addGo_index (s : Store) (embs : List (List ℚ)) :
    ∀ chunks : List DocumentChunk, (addGo s embs chunks).1.index = s.index := by
  intro chunks
  induction chunks generalizing s embs with
  | nil => rfl
  | cons c rest ih =>
    cases hc : c.embedding with
    | none => simp [addGo, hc]
    | some v => simpa [addGo, hc] using ih _ _

/-- Helper: in every reachable store state, a missing index comes with empty
`metadata` and `texts` arrays — the hypothesis under which `add([])` is a
strict no-op. -/
theorem reach_none_empty (s : Store) (hs : Reach s) :
    s.index = none → s.metadata = [] ∧ s.texts = [] := by
  induction hs with
  | mk dimension => exact fun _ => ⟨rfl, rfl⟩
  | create s _ _ => exact fun h => absurd h (by simp [createIndex])
  | add s chunks _ _ =>
    intro hnone
    exfalso
    have hgo := addGo_index
      (match s.index with | none => createIndex s | some _ => s) [] chunks
    unfold addDocuments at hnone
    dsimp only at hnone
    cases haux : addGo (match s.index with | none => createIndex s | some _ => s)
        [] chunks with
    | mk s1 r =>
      rw [haux] at hnone hgo
      dsimp only at hgo
      have hs1 : s1.index = none := by
        cases r with
        | error e => exact hnone
        | ok embs =>
          cases embs with
          | nil => exact hnone
          | cons e0 erest => exact absurd hnone (by simp)
      rw [hs1] at hgo
      cases hsi : s.index with
      | none => rw [hsi] at hgo; exact absurd hgo.symm (by simp [createIndex])
      | some v =>
        rw [hsi] at hgo
        dsimp only at hgo
        rw [hsi] at hgo
        exact absurd hgo (by simp)
  | load s disk _ ih =>
    cases disk with
    | none => exact ih
    | some d => exact fun h => absurd h (by simp [load])

/-- C1: evaluation at the failing input.  Adding `[goodChunk, badChunk]` to a
fresh store raises the missing-embedding error, but the aborted call leaves
`texts` and `metadata` with one appended entry each while no vector was
added: the parallel-array invariant `len(vectors) = len(texts) =
len(metadata)` is broken by the failure path of `add_documents`. -/
theorem c1_failed_add_leaves_arrays_misaligned :
    (addDocuments freshStore [goodChunk, badChunk]).1.texts.length = 1 ∧
    (addDocuments freshStore [goodChunk, badChunk]).1.metadata.length = 1 ∧
    count (addDocuments freshStore [goodChunk, badChunk]).1 = 0 ∧
    (addDocuments freshStore [goodChunk, badChunk]).2 =
      .error ("Chunk missing embedding: beta...").data :=
  ⟨rfl, rfl, rfl, rfl⟩

/-- C2, counterexample: `load` on persisted files whose sidecar arrays
disagree in length (one text, two metadata records) returns `True` and
installs the mismatched arrays — it does not fail with `CorruptIndex` and
does not leave the index unloaded. -/
theorem c2_load_accepts_mismatched_arrays :
    (load freshStore (some badDisk)).2 = true ∧
    (load freshStore (some badDisk)).1.texts.length = 1 ∧
    (load freshStore (some badDisk)).1.metadata.length = 2 :=
  ⟨rfl, rfl, rfl⟩

/-- C2, amended: `load` returns `False` and leaves the store untouched (so a
zero count stays zero) when the persisted files are missing; otherwise it
returns `True` and restores vectors, texts, metadata and dimension verbatim,
performing no length validation at all — mismatched arrays included. -/
theorem c2_load_contract (s : Store) (d : DiskData) :
    (load s none).2 = false ∧
    (load s none).1 = s ∧
    (load s (some d)).2 = true ∧
    (load s (some d)).1.texts = d.texts ∧
    (load s (some d)).1.metadata = d.metadata ∧
    count (load s (some d)).1 = d.vectors.length ∧
    (load s (some d)).1.dimension = d.dimension.getD s.dimension :=
  ⟨rfl, rfl, rfl, rfl, rfl, rfl, rfl⟩

/-- C3: evaluation at the failing input.  The constructor accepts
`chunk_size = 2, overlap = 2` without any validation (there is no
`ConfigError` anywhere in the code), and chunking a 3-character document
under that configuration never terminates: the window start does not
advance (`nextStart = start`), so the fueled model exhausts its fuel. -/
theorem c3_overlap_ge_chunk_size_accepted :
    SemanticChunker.init 2 2 = ⟨2, 2⟩ ∧
    nextStart (SemanticChunker.init 2 2) ("abc").data 0 = 0 ∧
    chunkDocument (SemanticChunker.init 2 2) ⟨("abc").data, "d", .txt⟩ = none := by
  refine ⟨rfl, by decide, by decide⟩

/-- C9: `add([])` is a no-op and `search` on an empty index returns `[]`.
For every store satisfying the reachable-state condition (a store without an
index has empty side arrays — true of every state the code can produce),
`add_documents []` returns 0 and leaves `count`, `texts` and `metadata`
unchanged, and whenever `count = 0`, `search` returns `[]` for every query,
`top_k` and threshold. -/
theorem c9_add_nil_noop_search_empty (s : Store) (q : List ℚ) (k : Nat) (thr : ℚ)
    (hreach : s.index = none → s.metadata = [] ∧ s.texts = []) :
    (addDocuments s []).2 = .ok 0 ∧
    count (addDocuments s []).1 = count s ∧
    (addDocuments s []).1.texts = s.texts ∧
    (addDocuments s []).1.metadata = s.metadata ∧
    (count s = 0 → search s q k thr = []) := by
  cases hidx : s.index with
  | none =>
    obtain ⟨hmd, hts⟩ := hreach hidx
    refine ⟨?_, ?_, ?_, ?_, ?_⟩ <;>
      simp [addDocuments, addGo, createIndex, count, search, hidx, hmd, hts]
  | some vecs =>
    refine ⟨?_, ?_, ?_, ?_, ?_⟩ <;>
      simp [addDocuments, addGo, createIndex, count, search, hidx]
    intro hlen
    simp [hlen]

/-- C9 witness: the no-op and empty-search facts at a concrete fresh store. -/
theorem c9_witness :
    (addDocuments freshStore []).2 = .ok 0 ∧
    count (addDocuments freshStore []).1 = count freshStore ∧
    (addDocuments freshStore []).1.texts = freshStore.texts ∧
    (addDocuments freshStore []).1.metadata = freshStore.metadata ∧
    (count freshStore = 0 → search freshStore [1] 5 (3 / 10) = []) :=
  c9_add_nil_noop_search_empty freshStore [1] 5 (3 / 10) (by decide)

/-- C10: `search` is read-only.  The state-transformer form of the method
returns the incoming store unchanged at every exit point — every field
(`index`, hence `count`, plus `texts`, `metadata` and `dimension`) is
identical — and its result list is exactly the pure `search`. -/
theorem c10_search_read_only (s : Store) (q : List ℚ) (k : Nat) (thr : ℚ) :
    (searchSt s q k thr).1 = s ∧ (searchSt s q k thr).2 = search s q k thr := by
  cases hidx : s.index with
  | none => exact ⟨by simp [searchSt, hidx], by simp [searchSt, search, hidx]⟩
  | some vecs =>
    constructor <;> simp [searchSt, search, hidx] <;> split <;> rfl

/-- C8: for every document and configuration, whenever chunking terminates
the emitted chunks carry `chunk_index` values `0 .. total_chunks - 1` in
emission order with no gaps, and every chunk's `total_chunks` equals the
number of chunks emitted for that document. -/
theorem c8_chunk_indices_contiguous (ck : SemanticChunker) (doc : Document)
    (cks : List DocumentChunk) (hck : chunkDocument ck doc = some cks)
    (i : Nat) (h : i < cks.length) :
    (cks.get ⟨i, h⟩).metadata.chunk_index = i ∧
    (cks.get ⟨i, h⟩).metadata.total_chunks = cks.length := by
  unfold chunkDocument at hck
  cases hm : mergeAndSplit ck (splitParagraphs doc.content) with
  | none => rw [hm] at hck; exact absurd hck (by simp)
  | some raw =>
    rw [hm] at hck
    have hcks : cks = ((List.range raw.length).zip raw).map (fun p =>
        { text := pyStrip p.2
          metadata :=
            { source := doc.source
              page := none
              chunk_index := p.1
              total_chunks := raw.length
              doc_type := some doc.doc_type }
          embedding := none : DocumentChunk }) := by
      exact (Option.some_inj.mp hck).symm
    have hlen : cks.length = raw.length := by
      simp [hcks, List.length_zip, List.length_range]
    subst hcks
    rw [List.get_eq_getElem]
    have hi : i < ((List.range raw.length).zip raw).length := by
      simpa using h
    simp [List.getElem_map, List.getElem_zip, List.getElem_range, hlen]

/-- C8 witness: the single chunk of a small document has index 0 and total 1. -/
theorem c8_witness :
    ([demoChunk].get ⟨0, by decide⟩).metadata.chunk_index = 0 ∧
    ([demoChunk].get ⟨0, by decide⟩).metadata.total_chunks = [demoChunk].length :=
  c8_chunk_indices_contiguous chk500 demoDoc [demoChunk] (by decide) 0 (by decide)

/-- Helper: `Prompts.error_response` always begins with a fixed non-empty
header, so it is never the empty string. -/
theorem error_response_ne_empty (a b : String) : Prompts.error_response a b ≠ "" := by
  unfold Prompts.error_response
  intro h
  have hd := congrArg String.data h
  simp only [String.data_append] at hd
  rcases List.append_eq_nil.mp hd with ⟨hd1, -⟩
  rcases List.append_eq_nil.mp hd1 with ⟨hd2, -⟩
  rcases List.append_eq_nil.mp hd2 with ⟨hd3, -⟩
  exact absurd hd3 (by decide)

/-- C7: `search_oip_documents` always reaches exactly one of the three
terminal statuses and never propagates a collaborator failure: an embedding
error (with a loaded store) yields status `"error"` with a non-empty
human-readable message; an empty search result yields status `"no_results"`
with an empty result list; and a `"success"` status never carries an empty
result list. -/
theorem c7_query_terminal_outcomes (store : Except String Store)
    (embed : Except String (List ℚ)) (query : String) (top_k : Int) :
    ((RagTool.search_oip_documents store embed query top_k).status = "success" ∨
      (RagTool.search_oip_documents store embed query top_k).status = "no_results" ∨
      (RagTool.search_oip_documents store embed query top_k).status = "error") ∧
    (∀ vs e, store = .ok vs → embed = .error e →
      (RagTool.search_oip_documents store embed query top_k).status = "error" ∧
      (RagTool.search_oip_documents store embed query top_k).message ≠ "") ∧
    (∀ vs qe, store = .ok vs → embed = .ok qe →
      search vs qe (min (max 1 top_k) 10).toNat RAGConfig.SIMILARITY_THRESHOLD = [] →
      (RagTool.search_oip_documents store embed query top_k).status = "no_results" ∧
      (RagTool.search_oip_documents store embed query top_k).results = []) ∧
    ¬((RagTool.search_oip_documents store embed query top_k).status = "success" ∧
      (RagTool.search_oip_documents store embed query top_k).results = []) := by
  refine ⟨?_, ?_, ?_, ?_⟩
  · unfold RagTool.search_oip_documents
    cases store with
    | error e => simp
    | ok vs =>
      cases embed with
      | error e => simp
      | ok qe => dsimp only; split <;> simp
  · rintro vs e rfl rfl
    exact ⟨rfl, error_response_ne_empty _ _⟩
  · rintro vs qe rfl rfl hempty
    unfold RagTool.search_oip_documents
    simp [hempty]
  · rintro ⟨hst, hres⟩
    unfold RagTool.search_oip_documents at hst hres
    cases store with
    | error e => exact absurd hst (by simp)
    | ok vs =>
      cases embed with
      | error e => exact absurd hst (by simp)
      | ok qe =>
        dsimp only at hst hres
        by_cases hempty :
            search vs qe (min (max 1 top_k) 10).toNat RAGConfig.SIMILARITY_THRESHOLD = []
        · rw [if_pos hempty] at hst
          exact absurd hst (by simp)
        · rw [if_neg hempty] at hres
          have hlen := congrArg List.length hres
          simp [List.length_zip, List.length_range] at hlen
          exact hempty hlen

/-- C7 witness: with a loaded store and a failing embedding call, the
response status is `"error"` and the message is non-empty. -/
theorem c7_witness :
    (RagTool.search_oip_documents (.ok demoStore) (.error "boom") "hi" 5).status =
      "error" ∧
    (RagTool.search_oip_documents (.ok demoStore) (.error "boom") "hi" 5).message ≠
      "" :=
  (c7_query_terminal_outcomes (.ok demoStore) (.error "boom") "hi" 5).2.1 demoStore
    "boom" rfl rfl

/-- Helper: the separator loop either leaves the raw window end unchanged or
returns `last + 1` for an occurrence strictly past the window middle (the
guard `last_sep > start + chunk_size // 2`). -/
theorem sepAdjust_cases (ck : SemanticChunker) (text : List Char) (start e : Int) :
    ∀ seps, sepAdjust ck text start e seps = e ∨
      ∃ last, start + ((ck.chunk_size / 2 : Nat) : Int) < last ∧
        sepAdjust ck text start e seps = last + 1
  | [] => Or.inl rfl
  | sep :: rest => by
    simp only [sepAdjust]
    split
    · exact Or.inr ⟨pyRfind text sep start e, by assumption, rfl⟩
    · exact sepAdjust_cases ck text start e rest

/-- Helper: every window end is either `start + chunk_size` or `last + 1`
for a separator occurrence strictly past the window middle. -/
theorem windowEnd_cases (ck : SemanticChunker) (text : List Char) (start : Int) :
    windowEnd ck text start = start + (ck.chunk_size : Int) ∨
      ∃ last, start + ((ck.chunk_size / 2 : Nat) : Int) < last ∧
        windowEnd ck text start = last + 1 := by
  unfold windowEnd
  dsimp only
  split
  · exact sepAdjust_cases ck text start _ sentenceSeps
  · exact Or.inl rfl

/-- Helper: under `overlap < chunk_size` AND `overlap < chunk_size / 2 + 2`
the window start strictly advances on every iteration. -/
theorem nextStart_advances (ck : SemanticChunker) (text : List Char)
    (h1 : ck.overlap < ck.chunk_size) (h2 : ck.overlap < ck.chunk_size / 2 + 2)
    (start : Int) : start < nextStart ck text start := by
  unfold nextStart
  rcases windowEnd_cases ck text start with h | ⟨last, hl, h⟩ <;> rw [h] <;> omega

/-- Helper: with a strictly advancing window, fuel exceeding the remaining
length makes the sliding-window loop return a result. -/
theorem splitGo_total (ck : SemanticChunker) (text : List Char)
    (h1 : ck.overlap < ck.chunk_size) (h2 : ck.overlap < ck.chunk_size / 2 + 2) :
    ∀ fuel : Nat, 1 ≤ fuel → ∀ start : Int, 0 ≤ start →
      (text.length : Int) - start < (fuel : Int) → (splitGo ck text fuel start).isSome := by
  intro fuel
  induction fuel with
  | zero => intro h; exact absurd h (by decide)
  | succ f ih =>
    intro _ start h0 hlt
    by_cases hs : start < (text.length : Int)
    · have hadv : start < nextStart ck text start := nextStart_advances ck text h1 h2 start
      have hf : 1 ≤ f := by omega
      have hrec := ih hf (nextStart ck text start)
        (by omega) (by unfold nextStart at *; push_cast at *; omega)
      obtain ⟨rest, hrest⟩ := Option.isSome_iff_exists.mp hrec
      have hrest' : splitGo ck text f (windowEnd ck text start - (ck.overlap : Int)) =
          some rest := hrest
      simp only [splitGo, if_pos hs]
      rw [hrest']
      split <;> simp_all
    · simp [splitGo, hs]

/-- C4 counterexample: `overlap < chunk_size` alone does not make the window
advance.  With `chunk_size = 10, overlap = 8` (so `overlap < chunk_size`)
and the text `"abcdefg. " * 5`, the first window is cut at the sentence
boundary (`end = 8`) and `start = end - overlap = 0` does not move, so the
sliding-window split never terminates (the fueled model exhausts its
fuel). -/
theorem c4_counterexample :
    ¬(∀ (ck : SemanticChunker) (text : List Char) (start : Int),
        ck.overlap < ck.chunk_size → 0 ≤ start → start < (text.length : Int) →
        start < nextStart ck text start) ∧
    nextStart chk108 c4Text 0 = 0 ∧
    splitWithOverlap chk108 c4Text = none := by
  refine ⟨?_, by decide, by decide⟩
  intro h
  have hlt := h chk108 c4Text 0 (by decide) le_rfl (by decide)
  rw [(by decide : nextStart chk108 c4Text 0 = 0)] at hlt
  exact lt_irrefl 0 hlt

/-- C4, amended: rejecting `overlap >= chunk_size` alone does not rule out
the infinite loop; the sentence-boundary cut can move the window end down
to `start + chunk_size/2 + 2`, so strict advancement needs the stronger
condition `overlap < chunk_size/2 + 2` as well.  Under both conditions the
window start strictly advances on every iteration — including when the
sentence-boundary search moves the cut earlier than the raw offset — and
the sliding-window split terminates. -/
theorem c4_amended (ck : SemanticChunker) (text : List Char) (start : Int)
    (h1 : ck.overlap < ck.chunk_size) (h2 : ck.overlap < ck.chunk_size / 2 + 2)
    (h0 : 0 ≤ start) (hs : start < (text.length : Int)) :
    start < nextStart ck text start ∧ (splitWithOverlap ck text).isSome := by
  refine ⟨nextStart_advances ck text h1 h2 start, ?_⟩
  unfold splitWithOverlap
  exact splitGo_total ck text h1 h2 (text.length + 1) (by omega) 0 (by omega)
    (by push_cast; omega)

/-- C4 witness: a configuration satisfying the amended side conditions
advances from `start = 0` and the split terminates. -/
theorem c4_witness :
    (0 : Int) < nextStart (SemanticChunker.init 10 3) (("hello world").data) 0 ∧
    (splitWithOverlap (SemanticChunker.init 10 3) (("hello world").data)).isSome :=
  c4_amended (SemanticChunker.init 10 3) (("hello world").data) 0 (by decide)
    (by decide) (by decide) (by decide)

/-- Helper: `dropWhile` is the identity when no element satisfies the
predicate. -/
theorem dropWhile_eq_self_of_not (p : Char → Bool) (l : List Char)
    (h : ∀ c ∈ l, p c = false) : l.dropWhile p = l := by
  cases l with
  | nil => rfl
  | cons a tl => simp [List.dropWhile_cons, h a (List.mem_cons_self a tl)]

/-- Helper: `strip()` is the identity on whitespace-free text. -/
theorem pyStrip_eq_self (l : List Char) (h : ∀ c ∈ l, isPySpace c = false) :
    pyStrip l = l := by
  unfold pyStrip
  rw [dropWhile_eq_self_of_not _ _ h,
    dropWhile_eq_self_of_not _ _ (fun c hc => h c (List.mem_reverse.mp hc)),
    List.reverse_reverse]

/-- Helper: characters of the slice `text[a:b]` are characters of `text`. -/
theorem pySlice_subset (text : List Char) (a b : Int) :
    ∀ c ∈ pySlice text a b, c ∈ text := fun c hc =>
  (List.take_sublist _ text).subset ((List.drop_sublist _ _).subset hc)

/-- Helper: a successful prefix comparison puts every separator character
into the text being scanned. -/
theorem leadsWith_subset : ∀ (sep l : List Char), leadsWith sep l = true →
    ∀ c ∈ sep, c ∈ l
  | [], _, _, c, hc => absurd hc (List.not_mem_nil c)
  | a :: as, [], h, c, _ => by simp [leadsWith] at h
  | a :: as, b :: bs, h, c, hc => by
    rw [leadsWith, Bool.and_eq_true, beq_iff_eq] at h
    rcases List.mem_cons.mp hc with rfl | hc
    · exact h.1 ▸ List.mem_cons_self _ _
    · exact List.mem_cons_of_mem _ (leadsWith_subset as bs h.2 c hc)

/-- Helper: on whitespace-free text the backward separator scan never finds
an occurrence (every sentence separator contains a whitespace character), so
it returns its accumulator. -/
theorem rfindGo_noWs (sep : List Char) (s e : Nat)
    (hsep : ∃ c ∈ sep, isPySpace c = true) :
    ∀ (l : List Char) (i : Nat) (acc : Int),
      (∀ c ∈ l, isPySpace c = false) → rfindGo sep s e l i acc = acc
  | [], _, _, _ => rfl
  | a :: tl, i, acc, h => by
    have hlw : leadsWith sep (a :: tl) = false := by
      by_contra hlw
      obtain ⟨c, hc, hcw⟩ := hsep
      have hmem := leadsWith_subset sep (a :: tl)
        (by revert hlw; cases leadsWith sep (a :: tl) <;> simp) c hc
      rw [h c hmem] at hcw
      exact absurd hcw (by decide)
    simp only [rfindGo, hlw, Bool.false_eq_true, and_false, if_false]
    exact rfindGo_noWs sep s e hsep tl (i + 1) acc
      (fun c hc => h c (List.mem_cons_of_mem _ hc))

/-- Helper: `rfind` on whitespace-free text returns `-1` for every sentence
separator. -/
theorem pyRfind_noWs (text sep : List Char) (a b : Int)
    (hsep : ∃ c ∈ sep, isPySpace c = true)
    (hws : ∀ c ∈ text, isPySpace c = false) : pyRfind text sep a b = -1 :=
  rfindGo_noWs sep _ _ hsep text 0 (-1) hws

/-- Helper: on whitespace-free text the separator loop never adjusts the
window end. -/
theorem sepAdjust_noWs (ck : SemanticChunker) (text : List Char) (start e : Int)
    (h0 : 0 ≤ start) (hws : ∀ c ∈ text, isPySpace c = false) :
    ∀ seps, (∀ sep ∈ seps, ∃ c ∈ sep, isPySpace c = true) →
      sepAdjust ck text start e seps = e
  | [], _ => rfl
  | sep :: rest, hseps => by
    simp only [sepAdjust]
    rw [pyRfind_noWs text sep start e (hseps sep (List.mem_cons_self _ _)) hws]
    rw [if_neg (by omega)]
    exact sepAdjust_noWs ck text start e h0 hws rest
      (fun s hs => hseps s (List.mem_cons_of_mem _ hs))

/-- Helper: on whitespace-free text every window ends at the raw offset
`start + chunk_size`. -/
theorem windowEnd_noWs (ck : SemanticChunker) (text : List Char) (start : Int)
    (h0 : 0 ≤ start) (hws : ∀ c ∈ text, isPySpace c = false) :
    windowEnd ck text start = start + (ck.chunk_size : Int) := by
  unfold windowEnd
  dsimp only
  split
  · exact sepAdjust_noWs ck text start _ h0 hws sentenceSeps (by decide)
  · rfl

/-- Helper: the sliding-window loop stops as soon as `start ≥ len(text)`. -/
theorem splitGo_stop (ck : SemanticChunker) (text : List Char) (fuel : Nat)
    (start : Int) (hs : ¬start < (text.length : Int)) :
    splitGo ck text (fuel + 1) start = some [] := by
  simp [splitGo, hs]

/-- Helper: one iteration of the sliding-window loop on whitespace-free text:
the window is `[start, start + chunk_size)`, the chunk is the unstripped
slice, and the next start is `start + chunk_size - overlap`. -/
theorem splitGo_step_noWs (ck : SemanticChunker) (text : List Char) (fuel : Nat)
    (start : Int) (h0 : 0 ≤ start) (hs : start < (text.length : Int))
    (hws : ∀ c ∈ text, isPySpace c = false) :
    splitGo ck text (fuel + 1) start =
      match splitGo ck text fuel
          (start + (ck.chunk_size : Int) - (ck.overlap : Int)) with
      | none => none
      | some rest =>
        some (if pySlice text start (start + (ck.chunk_size : Int)) = [] then rest
          else pySlice text start (start + (ck.chunk_size : Int)) :: rest) := by
  simp only [splitGo, if_pos hs]
  rw [windowEnd_noWs ck text start h0 hws]
  rw [pyStrip_eq_self _ (fun c hc => hws c (pySlice_subset text _ _ c hc))]

/-- Helper: on newline-free text the `split("\n\n")` worker produces the
single piece `cur.reverse ++ l`. -/
theorem splitBlankGo_noNl : ∀ l : List Char, '\n' ∉ l → ∀ cur : List Char,
    splitBlankGo cur l = [cur.reverse ++ l] := by
  intro l
  induction l with
  | nil => intro _ cur; simp [splitBlankGo]
  | cons a tl ih =>
    intro hnl cur
    cases tl with
    | nil => simp [splitBlankGo]
    | cons b rest =>
      have ha : a ≠ '\n' := fun h => hnl (h ▸ List.mem_cons_self _ _)
      have htl : '\n' ∉ b :: rest := fun h => hnl (List.mem_cons_of_mem _ h)
      rw [splitBlankGo, if_neg (by tauto), ih htl (a :: cur)]
      simp

/-- Helper: `split("\n\n")` on newline-free text yields the whole text. -/
theorem splitOnBlank_noNl (l : List Char) (h : '\n' ∉ l) : splitOnBlank l = [l] := by
  rw [splitOnBlank, splitBlankGo_noNl l h []]
  rfl

/-- Helper: the sliding window over a whitespace-free 1,200-character text
with `chunk_size = 500, overlap = 50` produces exactly the three windows
`[0, 500)`, `[450, 950)` and `[900, 1200)`. -/
theorem splitRun1200 (text : List Char) (hlen : text.length = 1200)
    (hws : ∀ c ∈ text, isPySpace c = false) :
    splitWithOverlap chk500 text =
      some [text.take 500, (text.take 950).drop 450, text.drop 900] := by
  have hcs : chk500.chunk_size = 500 := rfl
  have hov : chk500.overlap = 50 := rfl
  have hsl0 : pySlice text 0 ((0 : Int) + (chk500.chunk_size : Int)) = text.take 500 := by
    norm_num [pySlice, pySliceIdx, hlen, hcs]
    rfl
  have hsl1 : pySlice text 450 ((450 : Int) + (chk500.chunk_size : Int)) =
      (text.take 950).drop 450 := by
    norm_num [pySlice, pySliceIdx, hlen, hcs]
    rfl
  have hsl2 : pySlice text 900 ((900 : Int) + (chk500.chunk_size : Int)) =
      text.drop 900 := by
    norm_num [pySlice, pySliceIdx, hlen, hcs]
    rw [← hlen, List.take_length]
    rfl
  have hne0 : text.take 500 ≠ [] := by
    intro h
    have := congrArg List.length h
    simp [hlen] at this
  have hne1 : (text.take 950).drop 450 ≠ [] := by
    intro h
    have := congrArg List.length h
    simp [hlen] at this
  have hne2 : text.drop 900 ≠ [] := by
    intro h
    have := congrArg List.length h
    simp [hlen] at this
  have t3 : ∀ f : Nat, splitGo chk500 text (f + 1) 1350 = some [] := fun f =>
    splitGo_stop chk500 text f 1350 (by rw [hlen]; norm_num)
  have t2 : ∀ f : Nat, splitGo chk500 text (f + 1 + 1) 900 =
      some [text.drop 900] := by
    intro f
    rw [splitGo_step_noWs chk500 text (f + 1) 900 (by norm_num)
      (by rw [hlen]; norm_num) hws]
    have harith : (900 : Int) + (chk500.chunk_size : Int) - (chk500.overlap : Int) =
        1350 := by norm_num [hcs, hov]
    rw [harith, t3 f, hsl2]
    simp [hne2]
  have t1 : ∀ f : Nat, splitGo chk500 text (f + 1 + 1 + 1) 450 =
      some [(text.take 950).drop 450, text.drop 900] := by
    intro f
    rw [splitGo_step_noWs chk500 text (f + 1 + 1) 450 (by norm_num)
      (by rw [hlen]; norm_num) hws]
    have harith : (450 : Int) + (chk500.chunk_size : Int) - (chk500.overlap : Int) =
        900 := by norm_num [hcs, hov]
    rw [harith, t2 f, hsl1]
    simp [hne1]
  have t0 : ∀ f : Nat, splitGo chk500 text (f + 1 + 1 + 1 + 1) 0 =
      some [text.take 500, (text.take 950).drop 450, text.drop 900] := by
    intro f
    rw [splitGo_step_noWs chk500 text (f + 1 + 1 + 1) 0 le_rfl
      (by rw [hlen]; norm_num) hws]
    have harith : (0 : Int) + (chk500.chunk_size : Int) - (chk500.overlap : Int) =
        450 := by norm_num [hcs, hov]
    rw [harith, t1 f, hsl0]
    simp [hne0]
  have hfuel : text.length + 1 = 1197 + 1 + 1 + 1 + 1 := by rw [hlen]
  rw [splitWithOverlap, hfuel]
  exact t0 1197

/-- Helper: chunking a whitespace-free 1,200-character single paragraph
with the default configuration emits exactly the three windows. -/
theorem mergeRun1200 (text : List Char) (hlen : text.length = 1200)
    (hws : ∀ c ∈ text, isPySpace c = false) :
    mergeAndSplit chk500 [text] =
      some [text.take 500, (text.take 950).drop 450, text.drop 900] := by
  unfold mergeAndSplit
  rw [mergeGo, if_pos (by rw [hlen]; decide)]
  simp only [if_pos rfl]
  rw [splitRun1200 text hlen hws]
  rfl

set_option maxRecDepth 100000 in
/-- C6 counterexample: a 1,200-character single-paragraph document (no
newline, hence no blank-line break) containing sentence separators is split
into 5 chunks, not 3, with `chunk_size=500, overlap=50`: the sentence-
boundary cuts shorten every window, so the claimed count does not hold for
every such document. -/
theorem c6_counterexample :
    c6Text.length = 1200 ∧ '\n' ∉ c6Text ∧
    (chunkDocument chk500 c6Doc).map List.length = some 5 := by decide

/-- C6, amended: the 3-chunk lossless-reconstruction scenario holds for
1,200-character single-paragraph documents free of whitespace (hence free of
sentence-separator matches, so no window is cut early): chunking yields
exactly 3 chunks covering `[0,500)`, `[450,950)`, `[900,1200)`, and
concatenating the chunk texts after dropping each 50-character shared
overlap reconstructs the document text losslessly.  Documents containing
sentence separators can yield more than 3 chunks (the counterexample yields
5). -/
theorem c6_amended (text : List Char) (src : String) (ty : DocumentType)
    (hlen : text.length = 1200) (hws : ∀ c ∈ text, isPySpace c = false) :
    chunkDocument chk500 ⟨text, src, ty⟩ =
      some [⟨text.take 500, ⟨src, none, 0, 3, some ty⟩, none⟩,
        ⟨(text.take 950).drop 450, ⟨src, none, 1, 3, some ty⟩, none⟩,
        ⟨text.drop 900, ⟨src, none, 2, 3, some ty⟩, none⟩] ∧
    text.take 500 ++ (((text.take 950).drop 450).drop 50 ++ (text.drop 900).drop 50) =
      text := by
  have hnl : '\n' ∉ text := fun h => absurd (hws '\n' h) (by decide)
  have hne : text ≠ [] := by
    intro h
    rw [h] at hlen
    exact absurd hlen (by decide)
  have hparas : splitParagraphs text = [text] := by
    unfold splitParagraphs
    rw [splitOnBlank_noNl text hnl]
    simp [pyStrip_eq_self text hws, hne]
  constructor
  · unfold chunkDocument
    rw [hparas, mergeRun1200 text hlen hws]
    have hwsA : ∀ c ∈ text.take 500, isPySpace c = false :=
      fun c hc => hws c ((List.take_sublist _ _).subset hc)
    have hwsB : ∀ c ∈ (text.take 950).drop 450, isPySpace c = false :=
      fun c hc => hws c ((List.take_sublist _ _).subset ((List.drop_sublist _ _).subset hc))
    have hwsC : ∀ c ∈ text.drop 900, isPySpace c = false :=
      fun c hc => hws c ((List.drop_sublist _ _).subset hc)
    simp [List.range_succ, List.zip, List.zipWith, pyStrip_eq_self _ hwsA,
      pyStrip_eq_self _ hwsB, pyStrip_eq_self _ hwsC]
  · rw [List.drop_drop, List.drop_drop]
    norm_num
    rw [(by rw [List.take_take]; norm_num : text.take 500 = (text.take 950).take 500),
      ← List.append_assoc, List.take_append_drop]
    exact List.take_append_drop 950 text

/-- C6 witness: the amended scenario at a concrete whitespace-free
1,200-character document. -/
theorem c6_witness :
    chunkDocument chk500 ⟨aDoc1200, "plain.txt", .txt⟩ =
      some [⟨aDoc1200.take 500, ⟨"plain.txt", none, 0, 3, some .txt⟩, none⟩,
        ⟨(aDoc1200.take 950).drop 450, ⟨"plain.txt", none, 1, 3, some .txt⟩, none⟩,
        ⟨aDoc1200.drop 900, ⟨"plain.txt", none, 2, 3, some .txt⟩, none⟩] ∧
    aDoc1200.take 500 ++
        (((aDoc1200.take 950).drop 450).drop 50 ++ (aDoc1200.drop 900).drop 50) =
      aDoc1200 :=
  c6_amended aDoc1200 "plain.txt" .txt (by simp only [aDoc1200, List.length_replicate])
    (fun c hc => by rw [List.eq_of_mem_replicate hc]; rfl)

/-- Helper: the squared L2 distance is a sum of squares, hence nonnegative. -/
theorem sqDist_nonneg : ∀ u v : List ℚ, 0 ≤ sqDist u v
  | [], _ => by simp [sqDist]
  | _ :: _, [] => by simp [sqDist]
  | a :: u, b :: v => by
    rw [sqDist, List.zipWith_cons_cons, List.sum_cons]
    exact add_nonneg (mul_self_nonneg _) (sqDist_nonneg u v)

/-- Helper: the FAISS result matrix always has exactly `top_k` rows (padded
with id `-1` when fewer vectors are stored). -/
theorem faissSearch_length (vecs : List (List ℚ)) (q : List ℚ) (k : Nat) :
    (faissSearch vecs q k).length = k := by
  unfold faissSearch
  dsimp only
  rw [List.length_append, List.length_replicate, List.length_map, List.length_take]
  have hlen : ((List.range vecs.length).insertionSort (faissLe q vecs)).length =
      vecs.length := by
    rw [(List.perm_insertionSort (faissLe q vecs) (List.range vecs.length)).length_eq,
      List.length_range]
  omega

/-- Helper: every FAISS result row is either the `-1` padding or the
distance/id pair of a stored vector. -/
theorem faissSearch_mem (vecs : List (List ℚ)) (q : List ℚ) (k : Nat)
    (di : ℚ × Int) (hdi : di ∈ faissSearch vecs q k) :
    di = (0, -1) ∨ ∃ i : Nat, i < vecs.length ∧
      di = (sqDist q (vecs.getD i []), (i : Int)) := by
  unfold faissSearch at hdi
  dsimp only at hdi
  rcases List.mem_append.mp hdi with hmem | hmem
  · obtain ⟨i, hi, rfl⟩ := List.mem_map.mp hmem
    have hi' : i ∈ (List.range vecs.length).insertionSort (faissLe q vecs) :=
      (List.take_sublist _ _).subset hi
    have : i ∈ List.range vecs.length :=
      (List.perm_insertionSort (faissLe q vecs) _).subset hi'
    exact Or.inr ⟨i, List.mem_range.mp this, rfl⟩
  · exact Or.inl (List.eq_of_mem_replicate hmem)

/-- Helper: every scored hit is the thresholded `1 / (1 + d)` score of a
stored vector, tagged with its insertion id. -/
theorem scoreHits_mem (vecs : List (List ℚ)) (q : List ℚ) (k : Nat) (thr : ℚ)
    (p : ℚ × Int) (hp : p ∈ scoreHits vecs q k thr) :
    ∃ i : Nat, i < vecs.length ∧
      p = (1 / (1 + sqDist q (vecs.getD i [])), (i : Int)) ∧ thr ≤ p.1 := by
  unfold scoreHits at hp
  obtain ⟨di, hdi, rfl⟩ := List.mem_map.mp hp
  have hmem := List.mem_of_mem_filter hdi
  have hcond := List.of_mem_filter hdi
  simp only [Bool.and_eq_true, Bool.not_eq_true', decide_eq_false_iff_not, not_lt] at hcond
  rcases faissSearch_mem vecs q k di hmem with rfl | ⟨i, hi, rfl⟩
  · exact absurd hcond.1 (by norm_num)
  · exact ⟨i, hi, rfl, hcond.2⟩

/-- Helper: the scored hits are strictly ordered: descending score, ties
broken by ascending insertion id. -/
theorem scoreHits_pairwise (vecs : List (List ℚ)) (q : List ℚ) (k : Nat) (thr : ℚ) :
    List.Pairwise (fun a b : ℚ × Int => b.1 < a.1 ∨ (a.1 = b.1 ∧ a.2 < b.2))
      (scoreHits vecs q k thr) := by
  unfold scoreHits faissSearch
  dsimp only
  rw [List.filter_append]
  have hpadnil : ∀ n : Nat,
      (List.replicate n ((0 : ℚ), (-1 : Int))).filter (fun di =>
        !(decide (di.2 < 0)) && !(decide (1 / (1 + di.1) < thr))) = [] := by
    intro n
    refine List.filter_eq_nil_iff.mpr ?_
    intro a ha
    rw [List.eq_of_mem_replicate ha]
    intro hcond
    simp only [Bool.and_eq_true, Bool.not_eq_true', decide_eq_false_iff_not, not_lt] at hcond
    exact absurd (by norm_num : ((0 : ℚ), (-1 : Int)).2 < 0) (not_lt.mpr hcond.1)
  rw [hpadnil, List.append_nil]
  have hsorted : List.Pairwise (faissLe q vecs)
      ((List.range vecs.length).insertionSort (faissLe q vecs)) :=
    List.sorted_insertionSort (faissLe q vecs) (List.range vecs.length)
  have hnodup : ((List.range vecs.length).insertionSort (faissLe q vecs)).Nodup :=
    (List.perm_insertionSort (faissLe q vecs) (List.range vecs.length)).nodup_iff.mpr
      (List.nodup_range _)
  have htk := List.Pairwise.sublist (List.take_sublist k _) (hsorted.and hnodup)
  have htopP : List.Pairwise (fun a b : ℚ × Int => a.1 < b.1 ∨ (a.1 = b.1 ∧ a.2 < b.2))
      (((List.range vecs.length).insertionSort (faissLe q vecs)).take k |>.map
        (fun i => (sqDist q (vecs.getD i []), (i : Int)))) := by
    refine List.pairwise_map.mpr (htk.imp ?_)
    rintro i j ⟨hle, hne⟩
    rcases hle with hlt | ⟨heq, hij⟩
    · exact Or.inl hlt
    · refine Or.inr ⟨heq, ?_⟩
      show (i : Int) < (j : Int)
      exact_mod_cast Nat.lt_of_le_of_ne hij hne
  have hnn : ∀ x ∈ ((List.range vecs.length).insertionSort (faissLe q vecs)).take k
      |>.map (fun i => (sqDist q (vecs.getD i []), (i : Int))), 0 ≤ x.1 := by
    intro x hx
    obtain ⟨i, _, rfl⟩ := List.mem_map.mp hx
    exact sqDist_nonneg q (vecs.getD i [])
  refine List.pairwise_map.mpr ?_
  have hfil := List.Pairwise.sublist
    (@List.filter_sublist (ℚ × Int)
      (fun di => !(decide (di.2 < 0)) && !(decide (1 / (1 + di.1) < thr))) _) htopP
  refine hfil.imp_of_mem ?_
  intro a b ha hb hab
  have ha0 : 0 ≤ a.1 := hnn a (List.mem_of_mem_filter ha)
  have hb0 : 0 ≤ b.1 := hnn b (List.mem_of_mem_filter hb)
  rcases hab with hlt | ⟨heq, hid⟩
  · exact Or.inl (one_div_lt_one_div_of_lt (by linarith) (by linarith))
  · exact Or.inr ⟨by rw [heq], hid⟩

/-- Helper: on a non-empty index, `search` materializes exactly the scored
hits through the parallel arrays. -/
theorem search_eq_map (s : Store) (vecs : List (List ℚ)) (q : List ℚ) (k : Nat)
    (thr : ℚ) (hidx : s.index = some vecs) (hne : vecs ≠ []) :
    search s q k thr = (scoreHits vecs q k thr).map (fun p =>
      { text := s.texts.getD p.2.toNat []
        score := p.1
        metadata := s.metadata.getD p.2.toNat ⟨"", none, 0, 0, none⟩ : SearchResult }) := by
  unfold search
  rw [hidx]
  dsimp only
  rw [if_neg (fun h => hne (List.length_eq_zero.mp h))]

/-- C5: search postconditions on every non-empty index: at most `top_k`
results; every result carries score `1 / (1 + d)` for its candidate's
squared L2 distance `d`, a score in `(0, 1]` and at least `threshold`, and
the candidate's stored text; scored hits are ordered by strictly descending
score with ties broken by ascending insertion id, so result scores are
non-increasing. -/
theorem c5_search_postconditions (s : Store) (vecs : List (List ℚ)) (q : List ℚ)
    (k : Nat) (thr : ℚ) (hidx : s.index = some vecs) (hne : vecs ≠ []) :
    searchPost s vecs q k thr := by
  have hs := search_eq_map s vecs q k thr hidx hne
  refine ⟨?_, ?_, ?_, ?_⟩
  · rw [hs, List.length_map]
    calc (scoreHits vecs q k thr).length
        ≤ (faissSearch vecs q k).length := by
          unfold scoreHits
          rw [List.length_map]
          exact List.length_filter_le _ _
      _ = k := faissSearch_length vecs q k
  · intro r hr
    rw [hs] at hr
    obtain ⟨p, hp, rfl⟩ := List.mem_map.mp hr
    obtain ⟨i, hi, rfl, hthr⟩ := scoreHits_mem vecs q k thr p hp
    have hd := sqDist_nonneg q (vecs.getD i [])
    refine ⟨i, hi, rfl, by simp, ?_, ?_, hthr⟩
    · exact div_pos one_pos (by linarith)
    · rw [div_le_one (by linarith)]
      linarith
  · exact scoreHits_pairwise vecs q k thr
  · rw [hs]
    refine List.pairwise_map.mpr ((scoreHits_pairwise vecs q k thr).imp ?_)
    rintro a b (hlt | ⟨heq, _⟩)
    · exact le_of_lt hlt
    · exact le_of_eq heq.symm

/-- C5 witness: the postconditions at a concrete two-vector store. -/
theorem c5_witness : searchPost demoStore demoVecs [0, 0] 5 (3 / 10) :=
  c5_search_postconditions demoStore demoVecs [0, 0] 5 (3 / 10) rfl (by decide)

end OipChat
